import Mathlib

/-!
Verification of the prayer-slides extraction pipeline
(repository: Mike-Ew/sanctum).

This file gives a shallow embedding, over `List Char`, of the Python
functions the specification's claims are about:

* `apps/prayer_slides/app.py`: `extract_prayers`, `clean_text`,
  `chunk_into_slides`;
* `prayer_detector.py`: `PrayerDetector.clean_text`;
* `src/bible_fetcher.py`: `parse_scripture_reference`, `fetch_verse`;
* `app_v2.py`: `format_scripture_reference`.

A Python `str` is modelled as `List Char`; the relevant `re` substitutions
and matches are modelled by scanning functions with the same
leftmost-match / greedy-with-backtracking semantics as Python's `re`
module has on these concrete patterns.  All definitions are executable so
that the theorems below can be checked by evaluation on concrete inputs.
-/

/-- Python whitespace for `str.strip` / `\s`: space, tab, newline,
carriage return, vertical tab, form feed. -/
def pyIsSpace (c : Char) : Bool :=
  c = ' ' || c = '\t' || c = '\n' || c = '\r' || c = '\x0b' || c = '\x0c'

/-- Python `str.lower` (ASCII fragment). -/
def pyLower (s : List Char) : List Char := s.map Char.toLower

/-- Python `str.upper` (ASCII fragment). -/
def pyUpper (s : List Char) : List Char := s.map Char.toUpper

/-- Drop trailing whitespace (helper for `pyStrip`). -/
def trimR (s : List Char) : List Char :=
  (s.reverse.dropWhile pyIsSpace).reverse

/-- Python `str.strip()`: drop leading and trailing whitespace. -/
def pyStrip (s : List Char) : List Char :=
  trimR (s.dropWhile pyIsSpace)

/-- Does `p` occur at the start of `s`? (Python `str.startswith`.) -/
def startsList (p s : List Char) : Bool :=
  match p, s with
  | [], _ => true
  | _ :: _, [] => false
  | a :: p', b :: s' => a = b && startsList p' s'

/-- Is `p` a contiguous substring of `s`? (Python `in` on strings.) -/
def subList (p s : List Char) : Bool :=
  match s with
  | [] => startsList p []
  | _ :: s' => startsList p s || subList p s'

/-- Index of the first occurrence of `p` in `s`
(Python `str.find`), if any. -/
def findSub (p s : List Char) : Option Nat :=
  match s with
  | [] => if startsList p [] then some 0 else none
  | _ :: s' =>
    if startsList p s then some 0
    else (findSub p s').map (· + 1)

/-- Python `str.replace(old, new, 1)`: replace the first occurrence. -/
def replaceFirst (old new s : List Char) : List Char :=
  match findSub old s with
  | none => s
  | some i => s.take i ++ new ++ s.drop (i + old.length)

/-- Python `list.index(x)`: index of the first element equal to `x`
(the lists we apply it to always contain `x`; absent gives list length). -/
def pyIndex (l : List (List Char)) (x : List Char) : Nat :=
  match l with
  | [] => 0
  | a :: r => if a = x then 0 else pyIndex r x + 1

/-- Python `text.split(c)` for a single-character separator. -/
def splitChar (sep : Char) (s : List Char) : List (List Char) :=
  match s with
  | [] => [[]]
  | c :: r =>
    if c = sep then [] :: splitChar sep r
    else
      match splitChar sep r with
      | [] => [[c]]
      | hd :: tl => (c :: hd) :: tl

/-- Python `text.split(". ")` (the two-character separator used by
`chunk_into_slides`). -/
def splitDotSpace (s : List Char) : List (List Char) :=
  match s with
  | '.' :: ' ' :: r => [] :: splitDotSpace r
  | c :: r =>
    match splitDotSpace r with
    | [] => [[c]]
    | hd :: tl => (c :: hd) :: tl
  | [] => [[]]

/-- Python `". ".join(l)`. -/
def joinDotSpace (l : List (List Char)) : List Char :=
  match l with
  | [] => []
  | [x] => x
  | x :: xs => x ++ '.' :: ' ' :: joinDotSpace xs

/-- Python `" ".join(l)`. -/
def joinSpace (l : List (List Char)) : List Char :=
  match l with
  | [] => []
  | [x] => x
  | x :: xs => x ++ ' ' :: joinSpace xs

/-- The seven opening trigger phrases of `extract_prayers`
(`apps/prayer_slides/app.py`, line 58). -/
def openerKeys : List (List Char) :=
  ["let us pray".data, "let\x27s pray".data, "father we".data, "lord we".data,
   "dear god".data, "dear lord".data, "heavenly father".data]

/-- The full `prayer_keywords` list (lines 34-46); the first seven entries
are the opening triggers, the regex alternation `pattern` joins all of
them. -/
def allPrayerKeys : List (List Char) :=
  openerKeys ++
    ["we pray".data, "we thank you".data, "in jesus name".data, "amen".data]

/-- Does the lowercased, stripped sentence contain an opening trigger? -/
def isOpenerSentence (slow : List Char) : Bool :=
  openerKeys.any (fun k => subList k slow)

/-- `re.search(pattern, sentence_lower)`: the alternation of the eleven
keyword literals matches somewhere iff one of them is a substring. -/
def hasAnyKey (slow : List Char) : Bool :=
  allPrayerKeys.any (fun k => subList k slow)

/-- Kind of an emitted section: built by the `in_prayer` state machine
(opening trigger .. "amen" / end of transcript), or by the keyword-context
fallback branch (line 67). -/
inductive SecKind
  | prayer
  | context
deriving DecidableEq

/-- A section emitted by `extract_prayers`, instrumented with the
half-open range `[lo, hi)` of sentence indices it was built from. -/
structure Sect where
  kind : SecKind
  lo : Nat
  hi : Nat
  text : List Char
deriving DecidableEq

/-- The `for sentence in sentences` loop of `extract_prayers`
(`apps/prayer_slides/app.py`, lines 51-77), instrumented with sentence
index spans.  `ss` is the full sentence list (the context branch
re-slices it), `n = ss.length`, `i` the current index, `acc` the emitted
sections, and `inPr` / `cur` / `lo` the `in_prayer` / `current_prayer`
state together with the index at which the open span started.  The final
`[]` case is the trailing `if in_prayer and current_prayer` emission. -/
def extractAux (ss : List (List Char)) (n : Nat) :
    List (List Char) → Nat → List Sect → Bool → List (List Char) → Nat → List Sect
  | [], _, acc, inPr, cur, lo =>
    acc ++ (if inPr && decide (cur ≠ []) then [⟨SecKind.prayer, lo, n, joinDotSpace cur⟩] else [])
  | s :: rest, i, acc, inPr, cur, lo =>
    let slow := pyStrip (pyLower s)
    if isOpenerSentence slow then
      extractAux ss n rest (i + 1) acc true [pyStrip s] i
    else if inPr then
      let cur' := cur ++ [pyStrip s]
      if subList "amen".data slow then
        extractAux ss n rest (i + 1)
          (acc ++ [⟨SecKind.prayer, lo, i + 1, joinDotSpace cur'⟩]) false [] 0
      else
        extractAux ss n rest (i + 1) acc true cur' lo
    else if hasAnyKey slow && decide (20 < (pyStrip s).length) then
      let idx := pyIndex ss s
      let cs := idx - 1
      let ce := min n (idx + 3)
      let context := joinDotSpace ((ss.drop cs).take (ce - cs))
      if decide (50 < context.length) then
        extractAux ss n rest (i + 1)
          (acc ++ [⟨SecKind.context, cs, ce, pyStrip context⟩]) inPr cur lo
      else
        extractAux ss n rest (i + 1) acc inPr cur lo
    else
      extractAux ss n rest (i + 1) acc inPr cur lo

/-- `extract_prayers` of `apps/prayer_slides/app.py`, instrumented with
spans: split on `'.'`, then run the state-machine loop. -/
def extract_prayersSects (text : List Char) : List Sect :=
  let ss := splitChar '.' text
  extractAux ss ss.length ss 0 [] false [] 0

/-- `extract_prayers` of `apps/prayer_slides/app.py`: the list of emitted
section texts (`prayer_sections`). -/
def extract_prayers (text : List Char) : List (List Char) :=
  (extract_prayersSects text).map Sect.text

/-- Index of the first closing delimiter in `s` reachable without
crossing a newline (`.` in `\[.*?\]` does not match `\n`), if any. -/
def findClose (cl : Char) : List Char → Option Nat
  | [] => none
  | c :: r =>
    if c = cl then some 0
    else if c = '\n' then none
    else (findClose cl r).map (· + 1)

/-- Scanner for `re.sub(r'\[.*?\]', '', text)` (and the `\(...\)`
variant).  The first argument is a skip counter: a positive count means
the character is part of a span already matched and is dropped.  At an
opening delimiter the lazy `.*?\]` matches up to the first closing
delimiter (`findClose`); when none is reachable the opening delimiter is
kept and scanning continues at the next character, exactly as `re.sub`
advances on a failed match. -/
def removeDelimAux (op cl : Char) : Nat → List Char → List Char
  | _, [] => []
  | k + 1, _ :: r => removeDelimAux op cl k r
  | 0, c :: r =>
    if c = op then
      match findClose cl r with
      | some i => removeDelimAux op cl (i + 1) r
      | none => c :: removeDelimAux op cl 0 r
    else c :: removeDelimAux op cl 0 r

/-- `re.sub(r'\[.*?\]', '', text)` / `re.sub(r'\(.*?\)', '', text)`
(`clean_text`, lines 80-81). -/
def removeDelim (op cl : Char) (s : List Char) : List Char :=
  removeDelimAux op cl 0 s

/-- The alternatives of the filler regex of `clean_text`
(`apps/prayer_slides/app.py`, line 82), in source order, lowercased. -/
def fillerAlts : List (List Char) :=
  ["um".data, "uh".data, "you know".data, "like".data, "i mean".data,
   "actually".data]

/-- Case-insensitive "occurs at the start" test (the regexes are compiled
with `re.IGNORECASE`; the patterns we test are lowercase). -/
def startsCI (p s : List Char) : Bool := startsList p (pyLower s)

/-- The optional comma `,?` after a filler alternative. -/
def dropComma (r : List Char) : List Char :=
  match r with
  | ',' :: r' => r'
  | _ => r

/-- One attempted match of `(?:um|uh|you know|like|I mean|actually),?\s*`
at the current position: the first alternative that matches wins (regex
alternation is leftmost-first), then an optional comma and a greedy run
of whitespace are consumed.  Returns the rest of the string after the
match, or `none` when no alternative matches here. -/
def tryFiller (s : List Char) : Option (List Char) :=
  match fillerAlts.find? (fun a => startsCI a s) with
  | none => none
  | some a => some ((dropComma (s.drop a.length)).dropWhile pyIsSpace)

/-- Scanner for the filler substitution: on a match the matched span
(always at least two characters) is dropped by counting it off with the
skip argument; on no match the character is kept, as `re.sub` scans. -/
def subFillerAux : Nat → List Char → List Char
  | _, [] => []
  | k + 1, _ :: r => subFillerAux k r
  | 0, c :: r =>
    match tryFiller (c :: r) with
    | some r' => subFillerAux ((c :: r).length - r'.length - 1) r
    | none => c :: subFillerAux 0 r

/-- `re.sub(r'(?:um|uh|you know|like|I mean|actually),?\s*', '', text,
flags=re.IGNORECASE)` (`clean_text`, line 82). -/
def subFiller (s : List Char) : List Char := subFillerAux 0 s

/-- Scanner for `re.sub(r'\s+', ' ', text)`: a maximal whitespace run is
replaced by a single space; `prevSpace` records whether the previous
character was part of a run. -/
def collapseWsAux (prevSpace : Bool) : List Char → List Char
  | [] => []
  | c :: r =>
    if pyIsSpace c then
      if prevSpace then collapseWsAux true r
      else ' ' :: collapseWsAux true r
    else c :: collapseWsAux false r

/-- `re.sub(r'\s+', ' ', text)` (`clean_text`, line 83). -/
def collapseWs (s : List Char) : List Char := collapseWsAux false s

/-- Scanner for `re.sub(r'\.{2,}', '.', text)`: every maximal run of
periods is emitted as a single period (runs of length one are unchanged,
longer runs are collapsed, which is exactly what replacing `\.{2,}` by
`'.'` does). -/
def collapseDotsAux (prevDot : Bool) : List Char → List Char
  | [] => []
  | c :: r =>
    if c = '.' then
      if prevDot then collapseDotsAux true r
      else '.' :: collapseDotsAux true r
    else c :: collapseDotsAux false r

/-- `re.sub(r'\.{2,}', '.', text)` (`clean_text`, line 84). -/
def collapseDots (s : List Char) : List Char := collapseDotsAux false s

/-- The character class `[,.!?]`. -/
def isPunct (c : Char) : Bool := c = ',' || c = '.' || c = '!' || c = '?'

/-- Scanner for `re.sub(r'\s+([,.!?])', r'\1', text)`: `pending` buffers
(in reverse) a whitespace run not yet emitted; when the run turns out to
be followed by a punctuation mark the run is dropped and the mark kept,
otherwise the run is flushed unchanged (no position inside such a run can
start a match either). -/
def rmSpacePunctAux (pending : List Char) : List Char → List Char
  | [] => pending.reverse
  | c :: r =>
    if pyIsSpace c then rmSpacePunctAux (c :: pending) r
    else if isPunct c && !pending.isEmpty then c :: rmSpacePunctAux [] r
    else pending.reverse ++ c :: rmSpacePunctAux [] r

/-- `re.sub(r'\s+([,.!?])', r'\1', text)` (`clean_text`, line 85). -/
def rmSpacePunct (s : List Char) : List Char := rmSpacePunctAux [] s

/-- `clean_text` of `apps/prayer_slides/app.py` (lines 79-87): remove
bracketed and parenthesised spans, remove fillers, collapse whitespace,
collapse period runs, remove whitespace before punctuation, strip. -/
def clean_text (s : List Char) : List Char :=
  pyStrip (rmSpacePunct (collapseDots (collapseWs (subFiller
    (removeDelim '(' ')' (removeDelim '[' ']' s))))))

/-- Length of a `\d+:\d+\]` match directly after an opening bracket, if
the characters there match it (greedy digit runs followed by the required
`:` / `]` admit no other match). -/
def tsMatchLen (r : List Char) : Option Nat :=
  let d1 := r.takeWhile Char.isDigit
  match r.dropWhile Char.isDigit with
  | ':' :: r2 =>
    let d2 := r2.takeWhile Char.isDigit
    match r2.dropWhile Char.isDigit with
    | ']' :: _ =>
      if d1.isEmpty || d2.isEmpty then none
      else some (d1.length + 1 + d2.length + 1)
    | _ => none
  | _ => none

/-- Scanner for `re.sub(r'\[\d+:\d+\]', '', text)`
(`PrayerDetector.clean_text`, `prayer_detector.py` line 222). -/
def removeTsAux : Nat → List Char → List Char
  | _, [] => []
  | k + 1, _ :: r => removeTsAux k r
  | 0, c :: r =>
    if c = '[' then
      match tsMatchLen r with
      | some k => removeTsAux k r
      | none => c :: removeTsAux 0 r
    else c :: removeTsAux 0 r

/-- `re.sub(r'\[\d+:\d+\]', '', text)`. -/
def removeTimestamps (s : List Char) : List Char := removeTsAux 0 s

/-- The word-character class `\w`. -/
def isWordChar (c : Char) : Bool := c.isAlpha || c.isDigit || c = '_'

/-- Scanner for `re.sub(r'\b' + filler + r'\b', '', text,
flags=re.IGNORECASE)`: `prev` is the previous character of the original
string (`none` at the start), used for the left word boundary; the right
boundary looks at the character following the candidate match.  A match
is erased by counting its characters off with the skip argument. -/
def subWordFillerAux (f : List Char) : Option Char → Nat → List Char → List Char
  | _, _, [] => []
  | _, k + 1, c :: r => subWordFillerAux f (some c) k r
  | prev, 0, c :: r =>
    let bBefore := match prev with
      | none => true
      | some p => !isWordChar p
    let bAfter := match (c :: r).drop f.length with
      | [] => true
      | nxt :: _ => !isWordChar nxt
    if bBefore && startsCI f (c :: r) && bAfter then
      subWordFillerAux f (some c) (f.length - 1) r
    else
      c :: subWordFillerAux f (some c) 0 r

/-- One filler pass of `PrayerDetector.clean_text`
(`prayer_detector.py` line 226). -/
def subWordFiller (f s : List Char) : List Char :=
  subWordFillerAux f none 0 s

/-- The `fillers` list of `PrayerDetector.clean_text` (line 224). -/
def detectorFillers : List (List Char) :=
  ["um".data, "uh".data, "ah".data, "er".data]

/-- `PrayerDetector.clean_text` (`prayer_detector.py` lines 217-227):
collapse whitespace, remove `[d:d]` timestamps, remove the four fillers
as whole words (one `re.sub` pass per filler, in order), strip. -/
def detector_clean_text (s : List Char) : List Char :=
  pyStrip (detectorFillers.foldl (fun t f => subWordFiller f t)
    (removeTimestamps (collapseWs s)))

/-- Python `sentence.endswith('.')`. -/
def endsWithDot (s : List Char) : Bool :=
  match s.getLast? with
  | some c => c = '.'
  | none => false

/-- The `for sentence in sentences` loop of `chunk_into_slides`
(`apps/prayer_slides/app.py` lines 95-113), keeping each slide as its
list of sentences (`current_slide`); `slides`/`cur`/`cl` are
`slides`/`current_slide`/`current_length`.  The final case is the
trailing `if current_slide: slides.append(...)`. -/
def chunkAux (mc ml : Nat) : List (List Char) → List (List (List Char)) → List (List Char) → Nat → List (List (List Char))
  | [], slides, cur, _ => slides ++ (if cur ≠ [] then [cur] else [])
  | s :: rest, slides, cur, cl =>
    let st := pyStrip s
    if st = [] then chunkAux mc ml rest slides cur cl
    else
      let swp := if endsWithDot st then st else st ++ ['.']
      let l := swp.length
      if decide (mc < cl + l) || decide (ml ≤ cur.length) then
        chunkAux mc ml rest (slides ++ (if cur ≠ [] then [cur] else [])) [swp] l
      else
        chunkAux mc ml rest slides (cur ++ [swp]) (cl + l + 1)

/-- `chunk_into_slides` instrumented: the emitted slides as sentence
lists, before `' '.join`. -/
def chunkSlides (text : List Char) (mc ml : Nat) : List (List (List Char)) :=
  chunkAux mc ml (splitDotSpace text) [] [] 0

/-- `chunk_into_slides` of `apps/prayer_slides/app.py` (lines 89-115). -/
def chunk_into_slides (text : List Char) (mc ml : Nat) : List (List Char) :=
  (chunkSlides text mc ml).map joinSpace

/-- First candidate value accepted by `f`, trying in order (backtracking
over match alternatives). -/
def firstSome {α β : Type} (xs : List α) (f : α → Option β) : Option β :=
  match xs with
  | [] => none
  | x :: r =>
    match f x with
    | some b => some b
    | none => firstSome r f

/-- `hi, hi-1, ..., lo` (empty when `hi < lo`). -/
def descRange (hi lo : Nat) : List Nat :=
  (List.range (hi + 1 - lo)).map (fun k => hi - k)

/-- A greedy `p+` quantifier with backtracking: try the longest run of
`p`-characters first, down to one. -/
def plusGreedy {β : Type} (p : Char → Bool) (s : List Char)
    (k : List Char → List Char → Option β) : Option β :=
  firstSome (descRange (s.takeWhile p).length 1)
    (fun m => k (s.take m) (s.drop m))

/-- A greedy `p*` quantifier with backtracking: longest first, down to
the empty match. -/
def starGreedy {β : Type} (p : Char → Bool) (s : List Char)
    (k : List Char → List Char → Option β) : Option β :=
  firstSome (descRange (s.takeWhile p).length 0)
    (fun m => k (s.take m) (s.drop m))

/-- A `p?` quantifier: prefer consuming one `p`-character. -/
def optChar {β : Type} (p : Char → Bool) (s : List Char)
    (k : List Char → List Char → Option β) : Option β :=
  match s with
  | c :: r =>
    if p c then
      match k [c] r with
      | some b => some b
      | none => k [] s
    else k [] s
  | [] => k [] s

/-- The anchored pattern `^(\d?\s*\w+)\s+(\d+):(\d+)(?:-(\d+))?$` of
`parse_scripture_reference` (`src/bible_fetcher.py` line 58), with
Python's greedy/backtracking semantics.  Returns the captured groups:
book text, chapter digits, verse-start digits, optional verse-end
digits. -/
def parseRefGroups (s : List Char) :
    Option (List Char × List Char × List Char × Option (List Char)) :=
  optChar Char.isDigit s (fun d r1 =>
  starGreedy pyIsSpace r1 (fun sp r2 =>
  plusGreedy isWordChar r2 (fun w r3 =>
  plusGreedy pyIsSpace r3 (fun _ r4 =>
  plusGreedy Char.isDigit r4 (fun ch r5 =>
  match r5 with
  | ':' :: r6 =>
    plusGreedy Char.isDigit r6 (fun vs r7 =>
    match r7 with
    | [] => some (d ++ sp ++ w, ch, vs, none)
    | '-' :: r8 =>
      plusGreedy Char.isDigit r8 (fun ve r9 =>
      if r9.isEmpty then some (d ++ sp ++ w, ch, vs, some ve) else none)
    | _ => none)
  | _ => none)))))

/-- The `book_abbreviations` dictionary of `parse_scripture_reference`
(`src/bible_fetcher.py` lines 15-54), in insertion order. -/
def abbrevPairs : List (List Char × List Char) :=
  [("Jn".data, "John".data), ("Ps".data, "Psalms".data),
   ("Psalm".data, "Psalms".data), ("Mt".data, "Matthew".data),
   ("Mk".data, "Mark".data), ("Lk".data, "Luke".data),
   ("Rom".data, "Romans".data), ("Cor".data, "Corinthians".data),
   ("Gal".data, "Galatians".data), ("Eph".data, "Ephesians".data),
   ("Phil".data, "Philippians".data), ("Col".data, "Colossians".data),
   ("Thess".data, "Thessalonians".data), ("Tim".data, "Timothy".data),
   ("Heb".data, "Hebrews".data), ("Jas".data, "James".data),
   ("Pet".data, "Peter".data), ("Rev".data, "Revelation".data),
   ("Gen".data, "Genesis".data), ("Ex".data, "Exodus".data),
   ("Lev".data, "Leviticus".data), ("Num".data, "Numbers".data),
   ("Deut".data, "Deuteronomy".data), ("Josh".data, "Joshua".data),
   ("Judg".data, "Judges".data), ("Sam".data, "Samuel".data),
   ("Kgs".data, "Kings".data), ("Chr".data, "Chronicles".data),
   ("Neh".data, "Nehemiah".data), ("Prov".data, "Proverbs".data),
   ("Eccl".data, "Ecclesiastes".data), ("Isa".data, "Isaiah".data),
   ("Jer".data, "Jeremiah".data), ("Lam".data, "Lamentations".data),
   ("Ezek".data, "Ezekiel".data), ("Dan".data, "Daniel".data),
   ("Hos".data, "Hosea".data), ("Hab".data, "Habakkuk".data)]

/-- The abbreviation-expansion loop of `parse_scripture_reference`
(lines 70-73): the first abbreviation whose lowercase form is a prefix of
the lowercased book wins, and `str.replace(abbr, full, 1)` replaces its
first occurrence inside the lowercased book. -/
def expandBook (book : List Char) : List Char :=
  match abbrevPairs.find? (fun ab => startsList (pyLower ab.1) (pyLower book)) with
  | some ab => replaceFirst (pyLower ab.1) ab.2 (pyLower book)
  | none => book

/-- Python `str.title()` (ASCII fragment): a letter following a
non-letter is uppercased, any other letter is lowercased. -/
def pyTitleAux (prevAlpha : Bool) : List Char → List Char
  | [] => []
  | c :: r =>
    (if c.isAlpha then (if prevAlpha then c.toLower else c.toUpper) else c)
      :: pyTitleAux c.isAlpha r

/-- Python `str.title()`. -/
def pyTitle (s : List Char) : List Char := pyTitleAux false s

/-- The parsed-reference dictionary returned by
`parse_scripture_reference` (chapter and verse are kept as strings, as
in the source). -/
structure PyRef where
  book : List Char
  chapter : List Char
  verse_start : List Char
  verse_end : Option (List Char)
  full_reference : List Char
deriving DecidableEq

/-- `parse_scripture_reference` of `src/bible_fetcher.py` (lines 4-84):
match the anchored pattern against the stripped input, expand the book
abbreviation, title-case the book and assemble `full_reference`. -/
def parse_scripture_reference (reference : List Char) : Option PyRef :=
  match parseRefGroups (pyStrip reference) with
  | none => none
  | some (b, ch, vs, ve) =>
    let book := pyTitle (expandBook (pyStrip b))
    some ⟨book, ch, vs, ve,
      book ++ ' ' :: (ch ++ ':' :: vs) ++
        (match ve with | some e => '-' :: e | none => [])⟩

/-- An optional case-insensitive literal followed by `\s+`
(the `(?:chapter\s+)?` / `(?:verse\s+)?` groups of
`format_scripture_reference`): prefer the consuming branch. -/
def optLitWs {β : Type} (lit : List Char) (s : List Char)
    (k : List Char → Option β) : Option β :=
  if startsCI lit s then
    match plusGreedy pyIsSpace (s.drop lit.length) (fun _ r2 => k r2) with
    | some b => some b
    | none => k s
  else k s

/-- `[\s:]`. -/
def isWsColon (c : Char) : Bool := pyIsSpace c || c = ':'

/-- Continuation of the `format_scripture_reference` pattern after the
book group: `\s*(?:chapter\s+)?(\d+)[\s:]+(?:verse\s+)?(\d+)`
(prefix match, so any remainder is accepted). -/
def fmtAfterBook (g1 r : List Char) :
    Option (List Char × List Char × List Char) :=
  starGreedy pyIsSpace r (fun _ r2 =>
  optLitWs "chapter".data r2 (fun r3 =>
  plusGreedy Char.isDigit r3 (fun ch r4 =>
  plusGreedy isWsColon r4 (fun _ r5 =>
  optLitWs "verse".data r5 (fun r6 =>
  plusGreedy Char.isDigit r6 (fun v _ =>
  some (g1, ch, v)))))))

/-- The pattern
`([A-Za-z]+(?:\s+[A-Za-z]+)?)\s*(?:chapter\s+)?(\d+)[\s:]+(?:verse\s+)?(\d+)`
of `format_scripture_reference` (`app_v2.py` line 183), anchored at the
start only (`re.match`), case-insensitive. -/
def fmtGroups (s : List Char) : Option (List Char × List Char × List Char) :=
  plusGreedy (fun c => c.isAlpha) s (fun w1 r1 =>
    match plusGreedy pyIsSpace r1 (fun sp r2 =>
        plusGreedy (fun c => c.isAlpha) r2 (fun w2 r3 =>
        fmtAfterBook (w1 ++ sp ++ w2) r3)) with
    | some res => some res
    | none => fmtAfterBook w1 r1)

/-- The `abbreviations` dictionary of `format_scripture_reference`
(`app_v2.py` lines 149-177). -/
def fmtAbbrevs : List (List Char × List Char) :=
  [("genesis".data, "GEN.".data), ("exodus".data, "EXO.".data),
   ("leviticus".data, "LEV.".data), ("numbers".data, "NUM.".data),
   ("deuteronomy".data, "DEU.".data), ("psalms".data, "PSA.".data),
   ("psalm".data, "PSA.".data), ("proverbs".data, "PRO.".data),
   ("matthew".data, "MAT.".data), ("mark".data, "MAR.".data),
   ("luke".data, "LUK.".data), ("john".data, "JOH.".data),
   ("acts".data, "ACT.".data), ("romans".data, "ROM.".data),
   ("corinthians".data, "COR.".data), ("galatians".data, "GAL.".data),
   ("ephesians".data, "EPH.".data), ("philippians".data, "PHI.".data),
   ("colossians".data, "COL.".data), ("thessalonians".data, "THE.".data),
   ("timothy".data, "TIM.".data), ("titus".data, "TIT.".data),
   ("hebrews".data, "HEB.".data), ("james".data, "JAM.".data),
   ("peter".data, "PET.".data), ("revelation".data, "REV.".data),
   ("zechariah".data, "ZEC.".data)]

/-- `format_scripture_reference` of `app_v2.py` (lines 146-195):
normalise whitespace, match the citation pattern, abbreviate the book
(falling back to the first three letters uppercased plus a period), or
return the cleaned input uppercased when the pattern does not match. -/
def format_scripture_reference (scripture : List Char) : List Char :=
  let sc := pyStrip (collapseWs scripture)
  match fmtGroups sc with
  | some (b, ch, v) =>
    let book := pyLower b
    let ab :=
      match fmtAbbrevs.find? (fun p => p.1 = book) with
      | some p => p.2
      | none => (pyUpper book).take 3 ++ ['.']
    ab ++ ' ' :: (ch ++ ':' :: v)
  | none => pyUpper sc

/-- Outcome of the `requests.get` call in `fetch_verse`: an HTTP
response (status plus the used fields of the body JSON) or a raised
`requests.RequestException`. -/
inductive NetOutcome where
  | resp (status : Nat) (bodyText : List Char) (bodyRef : Option (List Char))
  | exc (msg : List Char)

/-- The dictionary returned by `fetch_verse`: `text`, `error`,
`reference`, and (on success only) `translation`. -/
structure FetchResult where
  text : Option (List Char)
  error : Option (List Char)
  reference : List Char
  translation : Option (List Char)
deriving DecidableEq

/-- Python `str.split()` (no separator): maximal non-whitespace runs,
empties dropped; `cur` accumulates the current word reversed. -/
def splitWsAux (cur : List Char) : List Char → List (List Char)
  | [] => if cur.isEmpty then [] else [cur.reverse]
  | c :: r =>
    if pyIsSpace c then
      if cur.isEmpty then splitWsAux [] r
      else cur.reverse :: splitWsAux [] r
    else splitWsAux (c :: cur) r

/-- `fetch_verse` of `src/bible_fetcher.py` (lines 86-158), with the
network call abstracted as an oracle `net : url → translation →
NetOutcome`.  The second component of the result records whether the
oracle was consulted (whether `requests.get` was reached).  The
`except Exception` clause of the source cannot fire in this pure model;
`except requests.RequestException` corresponds to `NetOutcome.exc`. -/
def fetch_verse (net : List Char → List Char → NetOutcome)
    (reference translation : List Char) : FetchResult × Bool :=
  match parse_scripture_reference reference with
  | none =>
    (⟨none, some ("Could not parse reference: ".data ++ reference),
      reference, none⟩, false)
  | some parsed =>
    let book := parsed.book.map (fun c => if c = ' ' then '+' else c)
    let verse_ref := parsed.chapter ++ ':' :: parsed.verse_start ++
      (match parsed.verse_end with | some ve => '-' :: ve | none => [])
    let url := "https://bible-api.com/".data ++ book ++ '+' :: verse_ref
    match net url translation with
    | NetOutcome.exc m =>
      (⟨none, some ("Network error: ".data ++ m), reference, none⟩, true)
    | NetOutcome.resp status bodyText bodyRef =>
      if status = 200 then
        let verse_text := joinSpace (splitWsAux [] (pyStrip bodyText))
        (⟨some verse_text, none, bodyRef.getD reference,
          some (pyUpper translation)⟩, true)
      else
        (⟨none, some ("API error: ".data ++ (Nat.repr status).data),
          reference, none⟩, true)

/-- Python `str.endswith`. -/
def endsList (p s : List Char) : Bool := startsList p.reverse s.reverse

/-- Two sections' sentence-index spans do not intersect. -/
def SectDisjoint (a b : Sect) : Prop := a.hi ≤ b.lo ∨ b.hi ≤ a.lo

instance (a b : Sect) : Decidable (SectDisjoint a b) := by
  unfold SectDisjoint; infer_instance

/-- The sections produced by the `in_prayer` state machine (the spans
opened by an opening trigger), excluding keyword-context sections. -/
def prayerSects (text : List Char) : List Sect :=
  (extract_prayersSects text).filter (fun s => decide (s.kind = SecKind.prayer))

/-- Total character count of a slide's sentences (excluding the joining
spaces of `' '.join`). -/
def sumLens (sl : List (List Char)) : Nat := (sl.map List.length).sum

/-- Scenario A input (§8 of the spec). -/
def scenarioA : List Char :=
  "Let us pray. Father we thank you for this day. We praise your holy name. In Jesus name we pray, Amen.".data

/-- The single section `extract_prayers` emits for Scenario A. -/
def scenarioAOut : List Char :=
  "Father we thank you for this day. We praise your holy name. In Jesus name we pray, Amen".data

/-- A transcript whose keyword-context windows overlap: two consecutive
long sentences both contain the keyword "we pray" but no opening
trigger, so the fallback branch fires on both and the two context
windows share sentences 0-2. -/
def overlapText : List Char :=
  "we pray for rain and harvest today. we pray for peace in all homes now. fine. ok.".data

/-- Only letters and plain spaces. -/
def alphaSpaceOnly (s : List Char) : Bool := s.all (fun c => c.isAlpha || c = ' ')

/-- No two adjacent spaces. -/
def noDoubleSpace (s : List Char) : Bool := !subList [' ', ' '] s

/-- No filler alternative occurs anywhere (case-insensitively). -/
def fillerFree (s : List Char) : Bool :=
  fillerAlts.all (fun a => !subList a (pyLower s))

/-- Head of the list is not whitespace (vacuously true for `[]`). -/
def headNotSpace : List Char → Bool
  | [] => true
  | c :: _ => !pyIsSpace c

/-- Claim C1, counterexample: on Scenario A's input, `extract_prayers`
returns exactly one section, but its text does not end with `"Amen."` —
splitting on `'.'` drops the final period, so the section ends with
`"Amen"`. -/
theorem c1_scenarioA_counterexample :
    extract_prayers scenarioA = [scenarioAOut]
      ∧ endsList "Amen.".data scenarioAOut = false := by
  decide

/-- Claim C1 (corrected): for Scenario A's input, `extract_prayers`
returns exactly one prayer section, whose text starts at "Father we
thank you" and ends at "Amen" — without the trailing period, which the
`'.'`-split consumes; `extract_prayers` returns bare text sections, so
no scripture reference is attached to it. -/
theorem c1_scenarioA_amended :
    extract_prayers scenarioA = [scenarioAOut]
      ∧ startsList "Father we thank you".data scenarioAOut = true
      ∧ endsList "Amen".data scenarioAOut = true := by
  decide

/-- Claim C2, counterexample: on `overlapText` the heuristic
segmentation emits two sections whose sentence spans `[0,3)` and `[0,4)`
overlap, refuting "no two prayer spans produced by the heuristic
segmentation overlap". -/
theorem c2_nonoverlap_counterexample :
    ¬ (extract_prayersSects overlapText).Pairwise SectDisjoint := by
  decide

/-- Claim C3, counterexample: with `charBudget = 8 ≥ 1` and
`lineBudget = 4 ≥ 1`, the second emitted slide holds two sentences and
its joined text `"bbb. ccc."` has 9 > 8 characters: the slide opened by
the overflow branch does not count the joining space. -/
theorem c3_budget_counterexample :
    chunkSlides "aaaaaaaaaa. bbb. ccc".data 8 4
        = [["aaaaaaaaaa.".data], ["bbb.".data, "ccc.".data]]
      ∧ chunk_into_slides "aaaaaaaaaa. bbb. ccc".data 8 4
        = ["aaaaaaaaaa.".data, "bbb. ccc.".data]
      ∧ 8 < ("bbb. ccc.".data).length := by
  decide

/-- Claim C4, counterexample: `parse_scripture_reference` returns `None`
for `"Isaiah 9 and verse 8"` (its pattern requires a colon between
chapter and verse), refuting "it does not return none/None for this
input". -/
theorem c4_verse_counterexample :
    parse_scripture_reference "Isaiah 9 and verse 8".data = none := by
  decide

/-- Claim C4 (corrected): for the citation `"Isaiah 9 and verse 8"` the
normalizer fails: `parse_scripture_reference` returns `None`, and
`format_scripture_reference` cannot match it either (the word "and"
blocks the `[\s:]+` separator), returning the uppercased input instead
of a parsed reference; the word-"verse" separator is supported only
without "and", and only by `format_scripture_reference`, which maps
`"Isaiah 9 verse 8"` to `"ISA. 9:8"`. -/
theorem c4_verse_amended :
    parse_scripture_reference "Isaiah 9 and verse 8".data = none
      ∧ format_scripture_reference "Isaiah 9 and verse 8".data
          = "ISAIAH 9 AND VERSE 8".data
      ∧ format_scripture_reference "Isaiah 9 verse 8".data = "ISA. 9:8".data := by
  decide

/-- Claim C5 (code bug): the normalizer-produced reference for
`"Ps 23:1"` has canonical form `"Psalms 23:1"`, but re-parsing that
canonical form yields book `"Psalmsalms"`: the abbreviation expansion
(`startswith` + `replace`) mangles any book that begins with one of its
own abbreviations, so `parse(ref.full_reference) ≠ ref`. -/
theorem c5_roundtrip_bug :
    parse_scripture_reference "Ps 23:1".data
        = some ⟨"Psalms".data, "23".data, "1".data, none, "Psalms 23:1".data⟩
      ∧ parse_scripture_reference "Psalms 23:1".data
        = some ⟨"Psalmsalms".data, "23".data, "1".data, none,
            "Psalmsalms 23:1".data⟩
      ∧ parse_scripture_reference "Psalm 118:23".data
        = some ⟨"Psalmsalm".data, "118".data, "23".data, none,
            "Psalmsalm 118:23".data⟩ := by
  decide

/-- Claim C6, counterexample: `clean_text` is not idempotent: removing
the space before the second period turns `". ."` into `".."`, which a
second application collapses to `"."`. -/
theorem c6_idem_counterexample :
    clean_text ". .".data = "..".data
      ∧ clean_text "..".data = ".".data
      ∧ clean_text (clean_text ". .".data) ≠ clean_text ". .".data := by
  decide

/-- Claim C7 (code bug): the filler regex of
`apps/prayer_slides/app.py`'s `clean_text` has no word boundaries, so it
removes `"um"` inside `"umbrella"`, while
`PrayerDetector.clean_text` (`prayer_detector.py`), which wraps each
filler in `\b...\b`, leaves `"umbrella"` unchanged as the claim
requires. -/
theorem c7_wholeword_bug :
    clean_text "umbrella".data = "brella".data
      ∧ detector_clean_text "umbrella".data = "umbrella".data := by
  decide

/-- Claim C10: when the reference does not match the citation grammar
(`parse_scripture_reference` returns `None`), `fetch_verse` returns the
error dictionary (`error` set, `text = None`) as a value — no exception
— and never consults the network oracle (the `Bool` component is
`false`), for every possible oracle. -/
theorem c10_parse_fail (net : List Char → List Char → NetOutcome)
    (reference translation : List Char)
    (h : parse_scripture_reference reference = none) :
    fetch_verse net reference translation
      = (⟨none, some ("Could not parse reference: ".data ++ reference),
          reference, none⟩, false) := by
  unfold fetch_verse
  rw [h]

/-- Witness for C10 at the unparseable reference `"hello world!"` and a
concrete oracle. -/
theorem c10_parse_fail_witness :
    fetch_verse (fun _ _ => NetOutcome.resp 200 [] none)
        "hello world!".data "kjv".data
      = (⟨none, some ("Could not parse reference: ".data ++ "hello world!".data),
          "hello world!".data, none⟩, false) :=
  c10_parse_fail (fun _ _ => NetOutcome.resp 200 [] none)
    "hello world!".data "kjv".data (by decide)

theorem noKeys_branches (slow : List Char)
    (h : ∀ k ∈ allPrayerKeys, subList k slow = false) :
    isOpenerSentence slow = false ∧ hasAnyKey slow = false := by
  constructor
  · rw [isOpenerSentence, List.any_eq_false]
    intro k hk
    simp only [Bool.not_eq_true]
    exact h k (by rw [allPrayerKeys]; exact List.mem_append_left _ hk)
  · rw [hasAnyKey, List.any_eq_false]
    intro k hk
    simp only [Bool.not_eq_true]
    exact h k hk

theorem extractAux_no_keys (ss : List (List Char)) (n : Nat) :
    ∀ (rem : List (List Char)) (i : Nat) (acc : List Sect)
      (cur : List (List Char)) (lo : Nat),
    (∀ s ∈ rem, ∀ k ∈ allPrayerKeys, subList k (pyStrip (pyLower s)) = false) →
    extractAux ss n rem i acc false cur lo = acc := by
  intro rem
  induction rem with
  | nil => intro i acc cur lo _; simp [extractAux]
  | cons s rest ih =>
    intro i acc cur lo h
    have hs := h s (List.mem_cons_self _ _)
    have hrest : ∀ s' ∈ rest, ∀ k ∈ allPrayerKeys,
        subList k (pyStrip (pyLower s')) = false :=
      fun s' hm => h s' (List.mem_cons_of_mem _ hm)
    obtain ⟨hop, hkey⟩ := noKeys_branches _ hs
    simp only [extractAux, hop, hkey, Bool.false_eq_true, if_false,
      Bool.false_and, ite_false]
    exact ih (i + 1) acc cur lo hrest

/-- Claim C9 (confirmed): a transcript none of whose sentences contains
any of the eleven `prayer_keywords` (so no opening trigger and no
fallback keyword fires) makes `extract_prayers` return the empty list —
a normal value, not an exception (the model is a total function). -/
theorem c9_no_triggers (text : List Char)
    (h : ∀ s ∈ splitChar '.' text, ∀ k ∈ allPrayerKeys,
        subList k (pyStrip (pyLower s)) = false) :
    extract_prayers text = [] := by
  unfold extract_prayers extract_prayersSects
  rw [extractAux_no_keys _ _ _ _ _ _ _ h]
  rfl

/-- Witness for C9 on a concrete keyword-free transcript. -/
theorem c9_no_triggers_witness :
    extract_prayers "hello there. how are you today".data = [] :=
  c9_no_triggers "hello there. how are you today".data (by decide)

theorem extractAux_open_to_end (ss : List (List Char)) (n : Nat) :
    ∀ (rem : List (List Char)) (i : Nat) (acc : List Sect) (inPr : Bool)
      (cur : List (List Char)) (lo : Nat),
    (inPr = true ∨ ∃ s ∈ rem, isOpenerSentence (pyStrip (pyLower s)) = true) →
    (∀ s ∈ rem, subList "amen".data (pyStrip (pyLower s)) = false) →
    (inPr = true → cur ≠ []) →
    ∃ pre sect, extractAux ss n rem i acc inPr cur lo = pre ++ [sect]
      ∧ sect.kind = SecKind.prayer ∧ sect.hi = n := by
  intro rem
  induction rem with
  | nil =>
    intro i acc inPr cur lo hopen _ hcur
    have hin : inPr = true := by
      rcases hopen with h | ⟨s, hs, _⟩
      · exact h
      · exact absurd hs (List.not_mem_nil s)
    have hc : cur ≠ [] := hcur hin
    refine ⟨acc, ⟨SecKind.prayer, lo, n, joinDotSpace cur⟩, ?_, rfl, rfl⟩
    simp [extractAux, hin, hc]
  | cons s rest ih =>
    intro i acc inPr cur lo hopen hna hcur
    have hnas := hna s (List.mem_cons_self _ _)
    have hnarest : ∀ s' ∈ rest, subList "amen".data (pyStrip (pyLower s')) = false :=
      fun s' hm => hna s' (List.mem_cons_of_mem _ hm)
    by_cases hop : isOpenerSentence (pyStrip (pyLower s)) = true
    · simp only [extractAux, hop, if_true]
      exact ih (i + 1) acc true [pyStrip s] i (Or.inl rfl) hnarest
        (fun _ => by simp)
    · have hrestopen : inPr = true ∨
          ∃ s' ∈ rest, isOpenerSentence (pyStrip (pyLower s')) = true := by
        rcases hopen with h | ⟨s', hs', hs'o⟩
        · exact Or.inl h
        · rcases List.mem_cons.mp hs' with rfl | hmem
          · exact absurd hs'o hop
          · exact Or.inr ⟨s', hmem, hs'o⟩
      simp only [extractAux, hop, if_false, Bool.not_eq_true] at *
      by_cases hin : inPr = true
      · simp only [hin, if_true, hnas, Bool.false_eq_true, if_false]
        exact ih (i + 1) acc true (cur ++ [pyStrip s]) lo (Or.inl rfl)
          hnarest (fun _ => by simp)
      · have hin' : inPr = false := by
          cases inPr
          · rfl
          · exact absurd rfl hin
        have hrest2 : ∃ s' ∈ rest, isOpenerSentence (pyStrip (pyLower s')) = true := by
          rcases hrestopen with h | h
          · exact absurd h hin
          · exact h
        subst hin'
        simp only [Bool.false_eq_true, if_false]
        by_cases hk : (hasAnyKey (pyStrip (pyLower s))
            && decide (20 < (pyStrip s).length)) = true
        · simp only [hk, if_true]
          by_cases hc : (decide (50 <
              (joinDotSpace ((ss.drop (pyIndex ss s - 1)).take
                (min n (pyIndex ss s + 3) - (pyIndex ss s - 1)))).length)) = true
          · simp only [hc, if_true]
            exact ih (i + 1) _ false cur lo (Or.inr hrest2) hnarest (by simp)
          · simp only [hc, if_false]
            exact ih (i + 1) acc false cur lo (Or.inr hrest2) hnarest (by simp)
        · simp only [hk, if_false]
          exact ih (i + 1) acc false cur lo (Or.inr hrest2) hnarest (by simp)

/-- Claim C8 (confirmed): if some sentence contains an opening trigger
and no sentence contains the closing trigger "amen", the span that is
open when the transcript ends is still emitted: the output is nonempty
and its last section is a state-machine prayer section whose span runs
to the end of the sentence list. -/
theorem c8_unterminated (text : List Char)
    (hop : ∃ s ∈ splitChar '.' text,
        isOpenerSentence (pyStrip (pyLower s)) = true)
    (hna : ∀ s ∈ splitChar '.' text,
        subList "amen".data (pyStrip (pyLower s)) = false) :
    extract_prayers text ≠ []
      ∧ ∃ pre sect, extract_prayersSects text = pre ++ [sect]
          ∧ sect.kind = SecKind.prayer
          ∧ sect.hi = (splitChar '.' text).length := by
  obtain ⟨pre, sect, heq, hk, hh⟩ :=
    extractAux_open_to_end (splitChar '.' text) (splitChar '.' text).length
      (splitChar '.' text) 0 [] false [] 0 (Or.inr hop) hna (by simp)
  have heq' : extract_prayersSects text = pre ++ [sect] := heq
  refine ⟨?_, pre, sect, heq', hk, hh⟩
  unfold extract_prayers
  rw [heq']
  simp

/-- Witness for C8 on a transcript that opens a prayer and never says
"amen". -/
theorem c8_unterminated_witness :
    extract_prayers "let us pray. for all the sick".data ≠ []
      ∧ ∃ pre sect,
          extract_prayersSects "let us pray. for all the sick".data
            = pre ++ [sect]
          ∧ sect.kind = SecKind.prayer
          ∧ sect.hi = (splitChar '.' "let us pray. for all the sick".data).length :=
  c8_unterminated "let us pray. for all the sick".data (by decide) (by decide)

theorem extractAux_prayer_pairwise (ss : List (List Char)) (n : Nat) :
    ∀ (rem : List (List Char)) (i : Nat) (acc : List Sect) (inPr : Bool)
      (cur : List (List Char)) (lo : Nat),
    (∀ a ∈ acc, a.kind = SecKind.prayer → a.hi ≤ i) →
    (inPr = true → lo ≤ i) →
    (inPr = true → ∀ a ∈ acc, a.kind = SecKind.prayer → a.hi ≤ lo) →
    ((acc.filter (fun s => decide (s.kind = SecKind.prayer))).Pairwise
      SectDisjoint) →
    ((extractAux ss n rem i acc inPr cur lo).filter
      (fun s => decide (s.kind = SecKind.prayer))).Pairwise SectDisjoint := by
  intro rem
  induction rem with
  | nil =>
    intro i acc inPr cur lo h1 h2 h3 h4
    rw [extractAux]
    split
    · next hcond =>
        have hin : inPr = true := (Bool.and_eq_true .. |>.mp hcond).1
        rw [List.filter_append, List.pairwise_append]
        refine ⟨h4, by simp, ?_⟩
        intro a ha b hb
        simp only [List.mem_filter, decide_eq_true_eq] at ha
        have hb' : b = ⟨SecKind.prayer, lo, n, joinDotSpace cur⟩ := by
          simpa using hb
        subst hb'
        exact Or.inl (h3 hin a ha.1 ha.2)
    · simpa using h4
  | cons s rest ih =>
    intro i acc inPr cur lo h1 h2 h3 h4
    have hmono : ∀ a ∈ acc, a.kind = SecKind.prayer → a.hi ≤ i + 1 :=
      fun a ha hk => Nat.le_succ_of_le (h1 a ha hk)
    rw [extractAux]
    split
    · -- opening trigger: the span (re)opens at index i
      exact ih (i + 1) acc true [pyStrip s] i hmono
        (fun _ => Nat.le_succ i) (fun _ => h1) h4
    · split
      · next hin =>
          split
          · -- closing trigger: emit the span [lo, i+1)
            refine ih (i + 1) _ false [] 0 ?_ (by simp) (by simp) ?_
            · intro a ha hk
              rcases List.mem_append.mp ha with hmem | hmem
              · exact hmono a hmem hk
              · have ha' : a = ⟨SecKind.prayer, lo, i + 1,
                    joinDotSpace (cur ++ [pyStrip s])⟩ := by
                  simpa using hmem
                subst ha'
                exact Nat.le_refl _
            · rw [List.filter_append, List.pairwise_append]
              refine ⟨h4, by simp, ?_⟩
              intro a ha b hb
              simp only [List.mem_filter, decide_eq_true_eq] at ha
              have hb' : b = ⟨SecKind.prayer, lo, i + 1,
                  joinDotSpace (cur ++ [pyStrip s])⟩ := by
                simpa using hb
              subst hb'
              exact Or.inl (h3 hin a ha.1 ha.2)
          · -- still inside the open span
            exact ih (i + 1) acc true (cur ++ [pyStrip s]) lo hmono
              (fun _ => Nat.le_succ_of_le (h2 hin)) (fun _ => h3 hin) h4
      · split
        · dsimp only
          split
          · -- keyword-context window emitted
            refine ih (i + 1) _ inPr cur lo ?_ (fun hh => Nat.le_succ_of_le (h2 hh))
              (fun hh => ?_) ?_
            · intro a ha hk
              rcases List.mem_append.mp ha with hmem | hmem
              · exact hmono a hmem hk
              · have ha' : a.kind = SecKind.context := by
                  have : a = ⟨SecKind.context, pyIndex ss s - 1,
                      min n (pyIndex ss s + 3),
                      pyStrip (joinDotSpace ((ss.drop (pyIndex ss s - 1)).take
                        (min n (pyIndex ss s + 3) - (pyIndex ss s - 1))))⟩ := by
                    simpa using hmem
                  rw [this]
                exact absurd (ha'.symm.trans hk) (by simp)
            · intro a ha hk
              rcases List.mem_append.mp ha with hmem | hmem
              · exact h3 hh a hmem hk
              · have ha' : a.kind = SecKind.context := by
                  have : a = ⟨SecKind.context, pyIndex ss s - 1,
                      min n (pyIndex ss s + 3),
                      pyStrip (joinDotSpace ((ss.drop (pyIndex ss s - 1)).take
                        (min n (pyIndex ss s + 3) - (pyIndex ss s - 1))))⟩ := by
                    simpa using hmem
                  rw [this]
                exact absurd (ha'.symm.trans hk) (by simp)
            · rw [List.filter_append]
              have hfil : (([⟨SecKind.context, pyIndex ss s - 1,
                  min n (pyIndex ss s + 3),
                  pyStrip (joinDotSpace ((ss.drop (pyIndex ss s - 1)).take
                    (min n (pyIndex ss s + 3) - (pyIndex ss s - 1))))⟩] :
                  List Sect).filter
                    (fun s => decide (s.kind = SecKind.prayer))) = [] := by
                simp
              rw [hfil, List.append_nil]
              exact h4
          · exact ih (i + 1) acc inPr cur lo hmono
              (fun hh => Nat.le_succ_of_le (h2 hh)) h3 h4
        · exact ih (i + 1) acc inPr cur lo hmono
            (fun hh => Nat.le_succ_of_le (h2 hh)) h3 h4

/-- Claim C2 (corrected): the spans opened by an opening trigger (the
state-machine prayer sections, including a final unterminated one) are
pairwise disjoint: once a span is open it is closed — at "amen" or at
the end of the transcript — before the next prayer section begins.  The
claim as stated is false: a later opening trigger restarts the open span
at its own sentence, and the keyword-context fallback branch can emit
overlapping context windows (see the counterexample). -/
theorem c2_nonoverlap_amended (text : List Char) :
    (prayerSects text).Pairwise SectDisjoint := by
  unfold prayerSects extract_prayersSects
  exact extractAux_prayer_pairwise _ _ _ 0 [] false [] 0 (by simp)
    (by simp) (by simp) (by simp)

/-- Witness for C2 (amended) on a transcript with two prayers: the two
emitted prayer spans are disjoint. -/
theorem c2_nonoverlap_witness :
    (prayerSects "let us pray. amen now. father we ask. amen again".data).Pairwise
      SectDisjoint :=
  c2_nonoverlap_amended "let us pray. amen now. father we ask. amen again".data

theorem joinSpace_append_single (l : List (List Char)) (x : List Char)
    (h : l ≠ []) : joinSpace (l ++ [x]) = joinSpace l ++ ' ' :: x := by
  induction l with
  | nil => exact absurd rfl h
  | cons a t ih =>
    cases t with
    | nil => simp [joinSpace]
    | cons b t' =>
      have hih := ih (by simp)
      show joinSpace (a :: ((b :: t') ++ [x])) = _
      rw [show joinSpace (a :: ((b :: t') ++ [x]))
          = a ++ ' ' :: joinSpace ((b :: t') ++ [x]) from rfl]
      rw [hih]
      rw [show joinSpace (a :: b :: t') = a ++ ' ' :: joinSpace (b :: t') from rfl,
        List.append_assoc]
      rfl

theorem sumLens_append_single (l : List (List Char)) (x : List Char) :
    sumLens (l ++ [x]) = sumLens l + x.length := by
  simp [sumLens]

theorem chunkAux_budget (mc ml : Nat) :
    ∀ (rem : List (List Char)) (slides : List (List (List Char)))
      (cur : List (List Char)) (cl : Nat),
    (∀ sl ∈ slides, 1 < sl.length →
      sumLens sl ≤ mc ∧ (joinSpace sl).length ≤ mc + 1) →
    (cur ≠ [] → sumLens cur ≤ cl ∧ (joinSpace cur).length ≤ cl ∧
      (1 < cur.length → sumLens cur ≤ mc ∧ (joinSpace cur).length ≤ mc + 1)) →
    ∀ sl ∈ chunkAux mc ml rem slides cur cl, 1 < sl.length →
      sumLens sl ≤ mc ∧ (joinSpace sl).length ≤ mc + 1 := by
  intro rem
  induction rem with
  | nil =>
    intro slides cur cl hs hc sl hmem hlen
    rw [chunkAux] at hmem
    split at hmem
    · next hcur =>
        rcases List.mem_append.mp hmem with hm | hm
        · exact hs sl hm hlen
        · have : sl = cur := by simpa using hm
          subst this
          exact (hc hcur).2.2 hlen
    · rw [List.append_nil] at hmem
      exact hs sl hmem hlen
  | cons s rest ih =>
    intro slides cur cl hs hc sl hmem hlen
    rw [chunkAux] at hmem
    dsimp only at hmem
    split at hmem
    · exact ih slides cur cl hs hc sl hmem hlen
    · generalize hswp : (if endsWithDot (pyStrip s) then pyStrip s
        else pyStrip s ++ ['.']) = swp at hmem
      split at hmem
      · -- close the current slide, start a new one with this sentence
        refine ih _ _ _ ?_ ?_ sl hmem hlen
        · intro sl' hmem' hlen'
          rcases List.mem_append.mp hmem' with hm | hm
          · exact hs sl' hm hlen'
          · by_cases hcur : cur ≠ []
            · rw [if_pos hcur] at hm
              have : sl' = cur := by simpa using hm
              subst this
              exact (hc hcur).2.2 hlen'
            · rw [if_neg hcur] at hm
              exact absurd hm (List.not_mem_nil _)
        · intro _
          refine ⟨by simp [sumLens], by simp [joinSpace], ?_⟩
          intro hgt
          simp at hgt
      · -- append the sentence to the current slide
        next hfit =>
          have hcl : cl + swp.length ≤ mc := by
            rcases Bool.or_eq_false_iff.mp (Bool.not_eq_true _ |>.mp hfit)
              with ⟨ha, _⟩
            have := of_decide_eq_false ha
            omega
          refine ih _ _ _ hs ?_ sl hmem hlen
          intro _
          by_cases hcur : cur = []
          · subst hcur
            simp only [List.nil_append]
            refine ⟨by simp [sumLens]; omega, by simp [joinSpace]; omega, ?_⟩
            intro hgt
            simp at hgt
          · obtain ⟨hsum, hjoin, _⟩ := hc hcur
            rw [sumLens_append_single, joinSpace_append_single _ _ hcur]
            refine ⟨by omega, ?_, ?_⟩
            · simp only [List.length_append, List.length_cons]
              omega
            · intro _
              constructor
              · omega
              · simp only [List.length_append, List.length_cons]
                omega

/-- Claim C3 (corrected): for every input and budgets `charBudget ≥ 1`,
`lineBudget ≥ 1`, each emitted slide with more than one sentence has
sentence-character sum at most `charBudget`, and joined text (including
the single joining spaces) of length at most `charBudget + 1`.  The
claim as stated is false: a slide opened by the overflow branch tracks
`current_length` without the joining space, so its joined text can reach
`charBudget + 1` characters (see the counterexample). -/
theorem c3_budget_amended (text : List Char) (mc ml : Nat)
    (hmc : 1 ≤ mc) (hml : 1 ≤ ml) :
    ∀ sl ∈ chunkSlides text mc ml, 1 < sl.length →
      sumLens sl ≤ mc ∧ (joinSpace sl).length ≤ mc + 1 := by
  unfold chunkSlides
  exact chunkAux_budget mc ml _ [] [] 0 (by simp) (by simp)

/-- Witness for C3 (amended) on the counterexample input: the only
multi-sentence slide `["bbb.", "ccc."]` has sentence sum `8 ≤ 8` and
joined length `9 ≤ 8 + 1`. -/
theorem c3_budget_witness :
    sumLens ["bbb.".data, "ccc.".data] ≤ 8
      ∧ (joinSpace ["bbb.".data, "ccc.".data]).length ≤ 8 + 1 :=
  c3_budget_amended "aaaaaaaaaa. bbb. ccc".data 8 4 (by decide) (by decide)
    ["bbb.".data, "ccc.".data] (by decide) (by decide)

theorem alpha_not_space (c : Char) (h : c.isAlpha = true) :
    pyIsSpace c = false := by
  by_contra hS
  rw [Bool.not_eq_false] at hS
  have hS' : c = ' ' ∨ c = '\t' ∨ c = '\n' ∨ c = '\r' ∨ c = '\x0b'
      ∨ c = '\x0c' := by
    simpa [pyIsSpace, Bool.or_eq_true, decide_eq_true_eq, or_assoc] using hS
  rcases hS' with h' | h' | h' | h' | h' | h' <;> subst h' <;>
    exact absurd h (by decide)

theorem removeDelimAux_id (op cl : Char) :
    ∀ (s : List Char), s.all (fun c => !(c = op)) = true →
      removeDelimAux op cl 0 s = s := by
  intro s
  induction s with
  | nil => intro _; rfl
  | cons c r ih =>
    intro h
    rw [List.all_cons, Bool.and_eq_true] at h
    have hco : (c = op) = False := by
      simpa using h.1
    rw [removeDelimAux, if_neg (by simp [hco])]
    rw [ih h.2]

theorem startsList_subList (p s : List Char) (h : startsList p s = true) :
    subList p s = true := by
  cases s with
  | nil => exact h
  | cons c r => rw [subList]; rw [h]; rfl

theorem subList_cons_false (p : List Char) (c : Char) (r : List Char)
    (h : subList p (c :: r) = false) : subList p r = false := by
  rw [subList, Bool.or_eq_false_iff] at h
  exact h.2

theorem startsList_append (p : List Char) : ∀ (u v : List Char),
    startsList p u = true → startsList p (u ++ v) = true := by
  induction p with
  | nil => intro u v _; rfl
  | cons a p' ih =>
    intro u v h
    cases u with
    | nil => simp [startsList] at h
    | cons b u' =>
      rw [List.cons_append, startsList, Bool.and_eq_true]
      rw [startsList, Bool.and_eq_true] at h
      exact ⟨h.1, ih u' v h.2⟩

theorem subList_append_right (p : List Char) : ∀ (pre t : List Char),
    subList p t = true → subList p (pre ++ t) = true := by
  intro pre
  induction pre with
  | nil => intro t h; exact h
  | cons c pre' ih =>
    intro t h
    rw [List.cons_append, subList, Bool.or_eq_true]
    exact Or.inr (ih t h)

theorem subList_append_left (p : List Char) : ∀ (y post : List Char),
    subList p y = true → subList p (y ++ post) = true := by
  intro y
  induction y with
  | nil =>
    intro post h
    rw [subList] at h
    cases post with
    | nil => exact h
    | cons d post' => exact startsList_subList _ _ (startsList_append p [] _ h)
  | cons c y' ih =>
    intro post h
    rw [subList, Bool.or_eq_true] at h
    rw [List.cons_append, subList, Bool.or_eq_true]
    rcases h with h | h
    · exact Or.inl (startsList_append p (c :: y') post h)
    · exact Or.inr (ih post h)

theorem subList_mid (p pre y post : List Char)
    (h : subList p y = true) : subList p (pre ++ y ++ post) = true := by
  rw [List.append_assoc]
  exact subList_append_right p pre (y ++ post) (subList_append_left p y post h)

theorem tryFiller_none (s : List Char)
    (h : ∀ a ∈ fillerAlts, subList a (pyLower s) = false) :
    tryFiller s = none := by
  rw [tryFiller]
  cases hf : fillerAlts.find? (fun a => startsCI a s) with
  | none => rfl
  | some a =>
    have hmem : a ∈ fillerAlts := List.mem_of_find?_eq_some hf
    have hpre := List.find?_some hf
    have hpre' : startsList a (pyLower s) = true := by simpa [startsCI] using hpre
    have := startsList_subList _ _ hpre'
    rw [h a hmem] at this
    exact absurd this (by simp)

theorem subFillerAux_id : ∀ (s : List Char),
    (∀ a ∈ fillerAlts, subList a (pyLower s) = false) →
    subFillerAux 0 s = s := by
  intro s
  induction s with
  | nil => intro _; rfl
  | cons c r ih =>
    intro h
    have hrest : ∀ a ∈ fillerAlts, subList a (pyLower r) = false := by
      intro a ha
      exact subList_cons_false a _ _ (h a ha)
    rw [subFillerAux, tryFiller_none (c :: r) h]
    rw [ih hrest]

theorem alphaSpace_char (c : Char) (h : (c.isAlpha || decide (c = ' ')) = true)
    (hsp : pyIsSpace c = true) : c = ' ' := by
  rcases Bool.or_eq_true .. |>.mp h with ha | ha
  · rw [alpha_not_space c ha] at hsp
    exact absurd hsp (by simp)
  · exact of_decide_eq_true ha

theorem collapseWsAux_id : ∀ (s : List Char) (b : Bool),
    alphaSpaceOnly s = true → noDoubleSpace s = true →
    (b = true → headNotSpace s = true) → collapseWsAux b s = s := by
  intro s
  induction s with
  | nil => intro b _ _ _; rfl
  | cons c r ih =>
    intro b h1 h2 hb
    rw [alphaSpaceOnly, List.all_cons, Bool.and_eq_true] at h1
    have h2r : noDoubleSpace r = true := by
      rw [noDoubleSpace] at h2 ⊢
      rw [Bool.not_eq_true'] at h2 ⊢
      exact subList_cons_false _ _ _ h2
    by_cases hsp : pyIsSpace c = true
    · have hc : c = ' ' := alphaSpace_char c h1.1 hsp
      have hbf : b = false := by
        cases b
        · rfl
        · have := hb rfl
          rw [headNotSpace, hsp] at this
          exact absurd this (by simp)
      subst hbf
      rw [collapseWsAux, if_pos hsp]
      have hr : collapseWsAux true r = r := by
        refine ih true h1.2 h2r ?_
        intro _
        cases r with
        | nil => rfl
        | cons d r' =>
          rw [headNotSpace]
          by_cases hd : pyIsSpace d = true
          · exfalso
            have hd1 : (d.isAlpha || decide (d = ' ')) = true := by
              have h12 := h1.2
              rw [List.all_cons, Bool.and_eq_true] at h12
              exact h12.1
            have hdsp : d = ' ' := alphaSpace_char d hd1 hd
            have hsub : subList [' ', ' '] (c :: d :: r') = true := by
              subst hc
              subst hdsp
              exact startsList_subList _ _ (by simp [startsList])
            rw [noDoubleSpace, hsub] at h2
            exact absurd h2 (by simp)
          · rw [Bool.not_eq_true] at hd
            rw [hd]
            rfl
      rw [hr, hc]
      simp
    · rw [collapseWsAux, if_neg hsp]
      rw [ih false h1.2 h2r (by simp)]

/-- `collapseWs` is the identity on letters-and-single-spaces text. -/
theorem collapseWs_id (s : List Char) (h1 : alphaSpaceOnly s = true)
    (h2 : noDoubleSpace s = true) : collapseWs s = s :=
  collapseWsAux_id s false h1 h2 (by simp)

theorem collapseDotsAux_id : ∀ (s : List Char) (b : Bool),
    s.all (fun c => !(c = '.')) = true → collapseDotsAux b s = s := by
  intro s
  induction s with
  | nil => intro b _; rfl
  | cons c r ih =>
    intro b h
    rw [List.all_cons, Bool.and_eq_true] at h
    have hc : (c = '.') = False := by simpa using h.1
    rw [collapseDotsAux, if_neg (by simp [hc])]
    rw [ih false h.2]

theorem rmSpacePunctAux_flush : ∀ (s : List Char) (pending : List Char),
    s.all (fun c => !isPunct c) = true →
    rmSpacePunctAux pending s = pending.reverse ++ s := by
  intro s
  induction s with
  | nil => intro pending _; simp [rmSpacePunctAux]
  | cons c r ih =>
    intro pending h
    rw [List.all_cons, Bool.and_eq_true] at h
    have hc : isPunct c = false := by simpa using h.1
    by_cases hsp : pyIsSpace c = true
    · rw [rmSpacePunctAux, if_pos hsp, ih (c :: pending) h.2]
      simp
    · rw [rmSpacePunctAux, if_neg hsp, if_neg (by simp [hc]), ih [] h.2]
      simp

theorem rmSpacePunct_id (s : List Char)
    (h : s.all (fun c => !isPunct c) = true) : rmSpacePunct s = s := by
  rw [rmSpacePunct, rmSpacePunctAux_flush s [] h]
  rfl

theorem dropWhile_head_false (p : Char → Bool) : ∀ (l : List Char)
    (c : Char) (t : List Char), l.dropWhile p = c :: t → p c = false := by
  intro l
  induction l with
  | nil => intro c t h; simp [List.dropWhile] at h
  | cons a r ih =>
    intro c t h
    rw [List.dropWhile] at h
    by_cases hp : p a = true
    · rw [hp] at h
      exact ih c t h
    · rw [Bool.not_eq_true] at hp
      rw [hp] at h
      cases h
      exact hp

theorem dropWhile_idem (p : Char → Bool) (l : List Char) :
    (l.dropWhile p).dropWhile p = l.dropWhile p := by
  cases hd : l.dropWhile p with
  | nil => rfl
  | cons c t =>
    rw [List.dropWhile, dropWhile_head_false p l c t hd]

theorem trimR_idem (l : List Char) : trimR (trimR l) = trimR l := by
  rw [trimR, trimR, List.reverse_reverse, dropWhile_idem]

theorem trimR_eq_append (l : List Char) :
    l = trimR l ++ (l.reverse.takeWhile pyIsSpace).reverse := by
  rw [trimR]
  have h : l.reverse.takeWhile pyIsSpace ++ l.reverse.dropWhile pyIsSpace
      = l.reverse := by
    rw [List.takeWhile_append_dropWhile]
  calc l = l.reverse.reverse := (List.reverse_reverse l).symm
    _ = (l.reverse.takeWhile pyIsSpace ++ l.reverse.dropWhile pyIsSpace).reverse := by
        rw [h]
    _ = (l.reverse.dropWhile pyIsSpace).reverse
          ++ (l.reverse.takeWhile pyIsSpace).reverse := by
        rw [List.reverse_append]

theorem pyStrip_decomp (s : List Char) :
    s = s.takeWhile pyIsSpace ++ pyStrip s
      ++ ((s.dropWhile pyIsSpace).reverse.takeWhile pyIsSpace).reverse := by
  rw [pyStrip, List.append_assoc]
  rw [← trimR_eq_append (s.dropWhile pyIsSpace)]
  rw [List.takeWhile_append_dropWhile]

theorem trimR_head (l : List Char) (c : Char) (t : List Char)
    (h : trimR l = c :: t) : ∃ u, l = c :: u := by
  have := trimR_eq_append l
  rw [h] at this
  exact ⟨t ++ (l.reverse.takeWhile pyIsSpace).reverse, this⟩

theorem pyStrip_idem (s : List Char) : pyStrip (pyStrip s) = pyStrip s := by
  rw [pyStrip]
  have hdw : (pyStrip s).dropWhile pyIsSpace = pyStrip s := by
    cases hps : pyStrip s with
    | nil => rfl
    | cons c t =>
      rw [pyStrip] at hps
      obtain ⟨u, hu⟩ := trimR_head _ c t hps
      have hpc : pyIsSpace c = false := dropWhile_head_false pyIsSpace s c u hu
      rw [List.dropWhile, hpc]
  rw [hdw, pyStrip, trimR_idem]

theorem alphaSpace_no_special (c : Char)
    (h : (c.isAlpha || decide (c = ' ')) = true) :
    ¬(c = '[') ∧ ¬(c = '(') ∧ ¬(c = '.') ∧ isPunct c = false := by
  rcases Bool.or_eq_true .. |>.mp h with ha | ha
  · refine ⟨fun he => absurd ha (by rw [he]; decide),
      fun he => absurd ha (by rw [he]; decide),
      fun he => absurd ha (by rw [he]; decide), ?_⟩
    by_contra hp
    rw [Bool.not_eq_false] at hp
    have hp' : c = ',' ∨ c = '.' ∨ c = '!' ∨ c = '?' := by
      simpa [isPunct, Bool.or_eq_true, decide_eq_true_eq, or_assoc] using hp
    rcases hp' with h' | h' | h' | h' <;> rw [h'] at ha <;>
      exact absurd ha (by decide)
  · have hc : c = ' ' := of_decide_eq_true ha
    subst hc
    exact ⟨by decide, by decide, by decide, by decide⟩

theorem alphaSpaceOnly_all_facts (x : List Char)
    (h : alphaSpaceOnly x = true) :
    x.all (fun c => !(c = '[')) = true ∧ x.all (fun c => !(c = '(')) = true
      ∧ x.all (fun c => !(c = '.')) = true
      ∧ x.all (fun c => !isPunct c) = true := by
  rw [alphaSpaceOnly, List.all_eq_true] at h
  refine ⟨?_, ?_, ?_, ?_⟩ <;>
    · rw [List.all_eq_true]
      intro c hc
      obtain ⟨n1, n2, n3, n4⟩ := alphaSpace_no_special c (h c hc)
      simp [n1, n2, n3, n4]

theorem subList_false_mid (q pre y post : List Char)
    (h : subList q (pre ++ y ++ post) = false) : subList q y = false := by
  by_contra hc
  rw [Bool.not_eq_false] at hc
  rw [subList_mid q pre y post hc] at h
  exact absurd h (by simp)

theorem alphaSpaceOnly_mid (pre y post : List Char)
    (h : alphaSpaceOnly (pre ++ y ++ post) = true) :
    alphaSpaceOnly y = true := by
  rw [alphaSpaceOnly, List.all_eq_true] at h ⊢
  intro c hc
  exact h c (by
    rw [List.append_assoc]
    exact List.mem_append_right _ (List.mem_append_left _ hc))

theorem noDoubleSpace_mid (pre y post : List Char)
    (h : noDoubleSpace (pre ++ y ++ post) = true) :
    noDoubleSpace y = true := by
  rw [noDoubleSpace, Bool.not_eq_true'] at h ⊢
  exact subList_false_mid _ _ _ _ h

theorem fillerFree_mid (pre y post : List Char)
    (h : fillerFree (pre ++ y ++ post) = true) : fillerFree y = true := by
  rw [fillerFree, List.all_eq_true] at h ⊢
  intro a ha
  have hx := h a ha
  rw [Bool.not_eq_true'] at hx ⊢
  have hdist : pyLower (pre ++ y ++ post)
      = pyLower pre ++ pyLower y ++ pyLower post := by
    simp [pyLower]
  rw [hdist] at hx
  exact subList_false_mid _ _ _ _ hx

theorem clean_text_eq_strip (x : List Char) (h1 : alphaSpaceOnly x = true)
    (h2 : noDoubleSpace x = true) (h3 : fillerFree x = true) :
    clean_text x = pyStrip x := by
  obtain ⟨nb, np, nd, npu⟩ := alphaSpaceOnly_all_facts x h1
  have hff : ∀ a ∈ fillerAlts, subList a (pyLower x) = false := by
    rw [fillerFree, List.all_eq_true] at h3
    intro a ha
    have := h3 a ha
    rwa [Bool.not_eq_true'] at this
  have e1 : removeDelim '[' ']' x = x := removeDelimAux_id '[' ']' x nb
  have e2 : removeDelim '(' ')' x = x := removeDelimAux_id '(' ')' x np
  have e3 : subFiller x = x := subFillerAux_id x hff
  have e4 : collapseWs x = x := collapseWs_id x h1 h2
  have e5 : collapseDots x = x := collapseDotsAux_id x false nd
  have e6 : rmSpacePunct x = x := rmSpacePunct_id x npu
  rw [clean_text, e1, e2, e3, e4, e5, e6]

/-- Claim C6 (corrected): `clean_text` is not idempotent in general (see
the counterexample: removing whitespace before punctuation can create a
new period run that only a second pass collapses, and the unboundaried
filler regex can cascade).  It is idempotent on inputs made of letters
and spaces with no two adjacent spaces and no filler-token fragment:
there sanitisation reduces to stripping, and stripping is idempotent. -/
theorem c6_idem_amended (x : List Char) (h1 : alphaSpaceOnly x = true)
    (h2 : noDoubleSpace x = true) (h3 : fillerFree x = true) :
    clean_text (clean_text x) = clean_text x := by
  have e1 := clean_text_eq_strip x h1 h2 h3
  have hdecomp := pyStrip_decomp x
  have h1' : alphaSpaceOnly (pyStrip x) = true :=
    alphaSpaceOnly_mid _ _ _ (by rw [← hdecomp]; exact h1)
  have h2' : noDoubleSpace (pyStrip x) = true :=
    noDoubleSpace_mid _ _ _ (by rw [← hdecomp]; exact h2)
  have h3' : fillerFree (pyStrip x) = true :=
    fillerFree_mid _ _ _ (by rw [← hdecomp]; exact h3)
  have e2 := clean_text_eq_strip (pyStrip x) h1' h2' h3'
  rw [e1, e2, pyStrip_idem]

/-- Witness for C6 (amended) at a concrete letters-and-spaces string. -/
theorem c6_idem_witness :
    clean_text (clean_text " hello world ".data)
      = clean_text " hello world ".data :=
  c6_idem_amended " hello world ".data (by decide) (by decide) (by decide)
